import Mathlib

set_option maxHeartbeats 1000000

/- Verification of the Nessus CSV to DOCX report generator (src/app.py).
   The pipeline is embedded shallowly: the pandas DataFrame loaded from the
   CSV becomes a list of raw records, the generated document becomes a list
   of document items, and a Python exception that aborts the run before
   doc.save becomes the error case of Except. -/

/-- Python str.upper, modelled per character. For the basic-latin data this
tool handles, Python upper-cases exactly the characters a..z, which is what
core Char.toUpper does; pandas Series.str.upper maps it over the string. -/
def pyUpper (s : String) : String := ⟨s.data.map Char.toUpper⟩

/-- Python str.lower, modelled per character (A..Z map to a..z). -/
def pyLower (s : String) : String := ⟨s.data.map Char.toLower⟩

/-- Python str.capitalize: first character upper-cased, the rest lower-cased. -/
def pyCapitalize (s : String) : String :=
  match s.data with
  | [] => ""
  | c :: cs => ⟨c.toUpper :: cs.map Char.toLower⟩

/-- Python f-string rendering of a cell that may be the pandas missing value
NaN: formatting the float NaN yields the text nan, a present string is
rendered as itself. -/
def pyStr (v : Option String) : String :=
  match v with
  | none => "nan"
  | some s => s

/-- One row of the CSV as loaded by pd.read_csv. An empty CSV field is read
by pandas as the missing value NaN, so every field is an Option String with
none standing for a missing or empty cell. -/
structure RawRow where
  host : Option String
  risk : Option String
  name : Option String
  description : Option String
  solution : Option String
deriving DecidableEq

/-- One normalized finding: a row of the five-column frame built on lines
84 to 86 of app.py, after filtering and severity normalization. The risk
field holds the NormalizedRisk value. -/
structure Finding where
  host : Option String
  risk : String
  title : Option String
  description : Option String
  solution : Option String
deriving DecidableEq

/-- Severity normalization of line 84 of app.py: upper-case the risk string,
then the pandas replace maps the exact value HIGH to CRITICAL. -/
def normalizeRisk (s : String) : String :=
  let u := pyUpper s
  if u = "HIGH" then "CRITICAL" else u

/-- The per-row effect of lines 82 to 86 of app.py: a row whose Risk cell is
missing (NaN, which includes empty cells) is dropped by notna, a row whose
Risk lower-cases to none is dropped by the second filter, and every other
row becomes a Finding with normalized risk. -/
def loadRow (r : RawRow) : Option Finding :=
  match r.risk with
  | none => none
  | some s =>
    if pyLower s = "none" then none
    else some { host := r.host, risk := normalizeRisk s,
                title := r.name, description := r.description,
                solution := r.solution }

/-- The filtered, normalized frame of lines 82 to 86 of app.py, in the
original row order (pandas boolean filtering keeps the row order). -/
def loadFindings (rows : List RawRow) : List Finding :=
  rows.filterMap loadRow

/-- The function get_severity_color of app.py, lines 17 to 25. -/
def get_severity_color (severity : String) : String :=
  let s := pyUpper severity
  if s = "CRITICAL" ∨ s = "HIGH" then "FF0000"
  else if s = "MEDIUM" then "FFA500"
  else if s = "LOW" then "FFFF00"
  else "D3D3D3"

/-- Number of findings of one severity value in a frame: one entry of the
value_counts of line 63 of app.py. -/
def countRisk (fs : List Finding) (s : String) : Nat :=
  (fs.filter (fun f => decide (f.risk = s))).length

/-- The chart data of add_severity_chart, line 63 of app.py: value_counts
reindexed over exactly CRITICAL, MEDIUM, LOW with fill_value 0, so an absent
category counts as zero and any other severity value is discarded. -/
def chartCounts (fs : List Finding) : Nat × Nat × Nat :=
  (countRisk fs "CRITICAL", countRisk fs "MEDIUM", countRisk fs "LOW")

/-- Total of the three bars of a chart. -/
def chartSum (fs : List Finding) : Nat :=
  countRisk fs "CRITICAL" + countRisk fs "MEDIUM" + countRisk fs "LOW"

/- Grouping. Python dicts preserve insertion order, so the nested
defaultdict of lines 88 to 95 of app.py is modelled as nested association
lists where a fresh key is appended at the end. -/

/-- Inner grouping level: severity to ordered list of findings. -/
abbrev SevGroups := List (String × List Finding)

/-- Grouping structure: host to severity to ordered list of findings. -/
abbrev Grouped := List (Option String × SevGroups)

/-- Dict lookup on the inner level. -/
def lookupSev (l : SevGroups) (s : String) : Option (List Finding) :=
  match l with
  | [] => none
  | (k, v) :: t => if k = s then some v else lookupSev t s

/-- Dict lookup on the outer level. -/
def lookupHost (g : Grouped) (h : Option String) : Option SevGroups :=
  match g with
  | [] => none
  | (k, v) :: t => if k = h then some v else lookupHost t h

/-- The effect of grouped[host][risk].append on the inner dict: a missing
severity key is created at the end holding the one finding, an existing
entry gets the finding appended. -/
def insertSev (l : SevGroups) (s : String) (f : Finding) : SevGroups :=
  match l with
  | [] => [(s, [f])]
  | (k, v) :: t => if k = s then (k, v ++ [f]) :: t else (k, v) :: insertSev t s f

/-- The effect of grouped[host][risk].append on the outer dict. -/
def insertGrouped (g : Grouped) (f : Finding) : Grouped :=
  match g with
  | [] => [(f.host, [(f.risk, [f])])]
  | (k, v) :: t =>
    if k = f.host then (k, insertSev v f.risk f) :: t
    else (k, v) :: insertGrouped t f

/-- The grouping loop of lines 88 to 95 of app.py over the whole frame. -/
def groupFindings (fs : List Finding) : Grouped :=
  fs.foldl insertGrouped []

/-- The ordered sequence grouped[host][severity], empty when either key is
absent. -/
def groupSeq (g : Grouped) (h : Option String) (s : String) : List Finding :=
  match lookupHost g h with
  | none => []
  | some l =>
    match lookupSev l s with
    | none => []
    | some fs => fs

/-- First-seen order of the hosts of a list of findings: the order in which
dict keys are created by the grouping loop. -/
def firstSeen (fs : List Finding) : List (Option String) :=
  fs.foldl (fun acc f => if f.host ∈ acc then acc else acc ++ [f.host]) []

/-- The fixed severity rendering order of line 112 of app.py. -/
def severity_order : List String := ["CRITICAL", "MEDIUM", "LOW"]

/- Rendering. The document is modelled as a list of items in emission
order. A Python exception raised while building the document aborts the run
before doc.save, so no output file is produced; that is the error case. -/

/-- Content of the five-row finding table of lines 137 to 163 of app.py.
The static label paragraphs (Description:, Impact:, Remediation:) are fixed
text and are not repeated here; the cell backgrounds and the variable texts
are the data. -/
structure FindingBlock where
  titleBg : String
  titleText : String
  riskText : String
  descriptionText : String
  impactText : String
  solutionBg : String
  solutionText : String
deriving DecidableEq

/-- One emitted piece of the generated document. -/
inductive DocItem where
  | pageBreak : DocItem
  | heading1 : String → DocItem
  | heading2 : String → DocItem
  | heading3 : String → DocItem
  | heading4 : String → DocItem
  | normal : String → DocItem
  | picture : Nat × Nat × Nat → String → DocItem
  | table : FindingBlock → DocItem
deriving DecidableEq

/-- Handing a cell value to the document text API (python-docx run text
assignment iterates the characters of the value). A present string is
accepted; a missing value is the float NaN, which is truthy but not
iterable, so add_run raises TypeError and the run aborts. -/
def addRunText (v : Option String) : Except String String :=
  match v with
  | none => Except.error "TypeError: cell value is the float nan"
  | some s => Except.ok s

/-- The finding block of lines 133 to 165 of app.py: the numbered Heading 4
paragraph, the borderless five-row table, and the trailing page break. The
title, description and solution cells pass the raw cell value to add_run in
that order, so a missing one aborts the run. -/
def renderFinding (hc i j : Nat) (v : Finding) : Except String (List DocItem) :=
  match addRunText v.title with
  | Except.error e => Except.error e
  | Except.ok titleRun =>
    match addRunText v.description with
    | Except.error e => Except.error e
    | Except.ok descRun =>
      match addRunText v.solution with
      | Except.error e => Except.error e
      | Except.ok solRun =>
        Except.ok
          [DocItem.heading4 ("3." ++ toString hc ++ "." ++ toString i ++ "." ++
              toString j ++ " " ++ pyStr v.title),
           DocItem.table
             { titleBg := get_severity_color v.risk,
               titleText := titleRun,
               riskText := "Risk: " ++ v.risk,
               descriptionText := descRun,
               impactText := "Impact information not available.",
               solutionBg := "9ACD32",
               solutionText := solRun },
           DocItem.pageBreak]

/-- The loop for j, vuln in enumerate(vulns, start=1) of line 133. -/
def renderFindingsGo (hc i : Nat) : Nat → List Finding → Except String (List DocItem)
  | _, [] => Except.ok []
  | j, v :: rest =>
    match renderFinding hc i j v with
    | Except.error e => Except.error e
    | Except.ok b =>
      match renderFindingsGo hc i (j + 1) rest with
      | Except.error e => Except.error e
      | Except.ok r => Except.ok (b ++ r)

/-- One iteration of the severity loop of lines 125 to 131 of app.py: a
severity absent from the host dict is skipped (continue); a present one gets
a Heading 3 and its finding blocks. -/
def renderSevBlock (hc i : Nat) (inner : SevGroups) (s : String) : Except String (List DocItem) :=
  match lookupSev inner s with
  | none => Except.ok []
  | some vulns =>
    match renderFindingsGo hc i 1 vulns with
    | Except.error e => Except.error e
    | Except.ok items =>
      Except.ok (DocItem.heading3 ("3." ++ toString hc ++ "." ++ toString i ++
          " " ++ pyCapitalize s ++ " Vulnerabilities") :: items)

/-- The loop for i, severity in enumerate(severity_order, start=1): the
index i advances on skipped severities too. -/
def renderSevsGo (hc : Nat) (inner : SevGroups) : Nat → List String → Except String (List DocItem)
  | _, [] => Except.ok []
  | i, s :: rest =>
    match renderSevBlock hc i inner s with
    | Except.error e => Except.error e
    | Except.ok here =>
      match renderSevsGo hc inner (i + 1) rest with
      | Except.error e => Except.error e
      | Except.ok r => Except.ok (here ++ r)

/-- One iteration of the host loop of lines 114 to 165 of app.py: a Heading
2, a chart over the rows of the frame whose Host equals this host, then the
severity groups in the fixed order. -/
def renderHostBlock (fs : List Finding) (hc : Nat) (host : Option String) (inner : SevGroups) :
    Except String (List DocItem) :=
  match renderSevsGo hc inner 1 severity_order with
  | Except.error e => Except.error e
  | Except.ok body =>
    Except.ok
      ([DocItem.heading2 ("3." ++ toString hc ++ " " ++ pyStr host),
        DocItem.picture (chartCounts (fs.filter (fun f => decide (f.host = host))))
          (pyStr host ++ " - Vulnerabilities by Severity")] ++ body)

/-- The host loop: host_count starts at 0 and is incremented when a host is
entered, and the hosts are visited in dict iteration order, which is key
insertion order. -/
def renderHostsGo (fs : List Finding) : Nat → Grouped → Except String (List DocItem)
  | _, [] => Except.ok []
  | hc, (host, inner) :: rest =>
    match renderHostBlock fs (hc + 1) host inner with
    | Except.error e => Except.error e
    | Except.ok here =>
      match renderHostsGo fs (hc + 1) rest with
      | Except.error e => Except.error e
      | Except.ok r => Except.ok (here ++ r)

/-- The fixed document content emitted before the host loop, lines 99 to
110 of app.py, for a given filtered frame. -/
def reportPrefix (fs : List Finding) : List DocItem :=
  [DocItem.pageBreak,
   DocItem.heading1 "1. Statistics",
   DocItem.picture (chartCounts fs) "Vulnerabilities by Severity",
   DocItem.normal "\n",
   DocItem.pageBreak,
   DocItem.heading1 "2. Executive Summary",
   DocItem.normal "Add executive summary here...\n",
   DocItem.pageBreak,
   DocItem.heading1 "3. Vulnerabilities and Remediations"]

/-- The whole of generate_report (lines 78 to 167 of app.py) on the parsed
rows: filtering and normalization, grouping, then the emitted document
content in order, ending with doc.save. The returned list is the content the
saved document holds; an exception while building means no document is
saved. -/
def generate_report (rows : List RawRow) : Except String (List DocItem) :=
  let fs := loadFindings rows
  match renderHostsGo fs 0 (groupFindings fs) with
  | Except.error e => Except.error e
  | Except.ok body => Except.ok (reportPrefix fs ++ body)

/-- File lifecycle of one add_severity_chart call (lines 62 to 76 of
app.py), tracking the set of transient files on disk. plt.savefig creates
the chart file; document.add_picture may fail (embedOk false), in which case
the exception propagates at once and the os.remove line is never reached;
on success os.remove deletes the file. -/
def add_severity_chart_files (embedOk : Bool) (files : List String) (name : String) :
    Except String Unit × List String :=
  let created := if name ∈ files then files else files ++ [name]
  if embedOk then
    (Except.ok (), created.filter (fun f => decide (f ≠ name)))
  else
    (Except.error "add_picture failed", created)

/- Spec-side definitions. These follow the wording of the specification and
of the claims, to be compared with the source-derived definitions above. -/

/-- The keep rule in the words of the spec: a row is excluded when its
severity is missing or empty or equals none case-insensitively. In the
frame that pd.read_csv loads, a missing and an empty severity cell are both
the NaN value, written none here; the empty-string disjunct is written out
to mirror the spec wording. -/
def specKeepRow (r : RawRow) : Bool :=
  match r.risk with
  | none => false
  | some s => decide (s ≠ "" ∧ pyLower s ≠ "none")

/-- The normalization step in the words of the spec: keep the five fields
and store the normalized severity. -/
def specNormalizeRow (r : RawRow) : Finding :=
  { host := r.host, risk := normalizeRisk (r.risk.getD ""),
    title := r.name, description := r.description, solution := r.solution }

/-- Host and severity headings of the rendered document, used to state the
section ordering claims. -/
inductive SectionMark where
  | host : String → SectionMark
  | sev : String → SectionMark
deriving DecidableEq

/-- Extraction of the host and severity headings of a document, in order. -/
def sectionMarks (items : List DocItem) : List SectionMark :=
  items.filterMap fun it =>
    match it with
    | DocItem.heading2 t => some (SectionMark.host t)
    | DocItem.heading3 t => some (SectionMark.sev t)
    | _ => none

/-- The section layout in the words of the spec: hosts in first-seen order,
and for every host the severities in the fixed priority order, each present
one giving a sub-heading. -/
def specSectionMarks (rows : List RawRow) : List SectionMark :=
  let fs := loadFindings rows
  (List.enumFrom 1 (firstSeen fs)).flatMap fun p =>
    SectionMark.host ("3." ++ toString p.1 ++ " " ++ pyStr p.2) ::
    (List.enumFrom 1 severity_order).filterMap fun q =>
      if (fs.filter (fun f => decide (f.host = p.2 ∧ f.risk = q.2))).isEmpty then none
      else some (SectionMark.sev ("3." ++ toString p.1 ++ "." ++ toString q.1 ++
          " " ++ pyCapitalize q.2 ++ " Vulnerabilities"))

/-- One finding block in the words of the spec: title with severity-colored
background, risk label, description, static impact placeholder, and
solution with the fixed accent background. -/
def specBlock (v : Finding) : DocItem :=
  DocItem.table
    { titleBg := get_severity_color v.risk,
      titleText := v.title.getD "",
      riskText := "Risk: " ++ v.risk,
      descriptionText := v.description.getD "",
      impactText := "Impact information not available.",
      solutionBg := "9ACD32",
      solutionText := v.solution.getD "" }

/-- One rendered finding in the words of the spec: numbered heading, block,
page break. -/
def specFindingItems (hc i j : Nat) (v : Finding) : List DocItem :=
  [DocItem.heading4 ("3." ++ toString hc ++ "." ++ toString i ++ "." ++
      toString j ++ " " ++ pyStr v.title),
   specBlock v,
   DocItem.pageBreak]

/-- One host section in the words of the spec: host heading, per-host chart,
then for every severity of the fixed priority order that is present for the
host, a severity sub-heading followed by one block per finding, the
findings in input order. -/
def specHostItems (fs : List Finding) (hc : Nat) (h : Option String) : List DocItem :=
  [DocItem.heading2 ("3." ++ toString hc ++ " " ++ pyStr h),
   DocItem.picture (chartCounts (fs.filter (fun f => decide (f.host = h))))
     (pyStr h ++ " - Vulnerabilities by Severity")]
  ++ (List.enumFrom 1 severity_order).flatMap fun q =>
      let group := fs.filter (fun f => decide (f.host = h ∧ f.risk = q.2))
      if group.isEmpty then []
      else DocItem.heading3 ("3." ++ toString hc ++ "." ++ toString q.1 ++
             " " ++ pyCapitalize q.2 ++ " Vulnerabilities")
           :: (List.enumFrom 1 group).flatMap fun t => specFindingItems hc q.1 t.1 t.2

/-- The whole document in the words of the spec: statistics section with
the global chart, executive summary placeholder, then the host sections in
first-seen order. -/
def specReportItems (rows : List RawRow) : List DocItem :=
  let fs := loadFindings rows
  reportPrefix fs ++ (List.enumFrom 1 (firstSeen fs)).flatMap fun p => specHostItems fs p.1 p.2

/-- The textual runs of one document item, for the determinism claim. -/
def itemTexts (it : DocItem) : List String :=
  match it with
  | DocItem.pageBreak => []
  | DocItem.heading1 t => [t]
  | DocItem.heading2 t => [t]
  | DocItem.heading3 t => [t]
  | DocItem.heading4 t => [t]
  | DocItem.normal t => [t]
  | DocItem.picture _ t => [t]
  | DocItem.table b =>
    [b.titleText, b.riskText, "Description:", b.descriptionText,
     "Impact:", b.impactText, "Remediation:", b.solutionText]

/-- All textual content of a document in order. -/
def docText (items : List DocItem) : List String := items.flatMap itemTexts

/-- All chart count data of a document in order. -/
def docCharts (items : List DocItem) : List (Nat × Nat × Nat) :=
  items.filterMap fun it =>
    match it with
    | DocItem.picture c _ => some c
    | _ => none

/-- Whether a document item is a finding table. -/
def isTableItem (it : DocItem) : Bool :=
  match it with
  | DocItem.table _ => true
  | _ => false

/- Concrete inputs used to instantiate the theorems. -/

/-- The three-row scenario of the spec. -/
def scenarioRows : List RawRow :=
  [{ host := some "h1", risk := some "High", name := some "A",
     description := some "dA", solution := some "sA" },
   { host := some "h1", risk := some "Low", name := some "B",
     description := some "dB", solution := some "sB" },
   { host := some "h2", risk := some "Medium", name := some "C",
     description := some "dC", solution := some "sC" }]

/-- A mixed input with a missing severity, a None severity and kept rows. -/
def mixedRows : List RawRow :=
  [{ host := some "h1", risk := some "high", name := some "A",
     description := some "dA", solution := some "sA" },
   { host := some "h1", risk := none, name := some "B",
     description := some "dB", solution := some "sB" },
   { host := some "h2", risk := some "None", name := some "C",
     description := some "dC", solution := some "sC" },
   { host := some "h2", risk := some "low", name := some "D",
     description := some "dD", solution := some "sD" }]

/-- One kept row whose severity is outside the chart category set. -/
def infoRows : List RawRow :=
  [{ host := some "h1", risk := some "Info", name := some "A",
     description := some "d", solution := some "s" }]

/-- One kept row whose optional Name field is missing. -/
def missingNameRows : List RawRow :=
  [{ host := some "h1", risk := some "High", name := none,
     description := some "d", solution := some "s" }]

/-- Three kept rows of one host with two CRITICAL findings around a LOW
one, to instantiate the stability claim. -/
def c3rows : List RawRow :=
  [{ host := some "h1", risk := some "High", name := some "A",
     description := some "dA", solution := some "sA" },
   { host := some "h1", risk := some "Low", name := some "B",
     description := some "dB", solution := some "sB" },
   { host := some "h1", risk := some "Critical", name := some "C",
     description := some "dC", solution := some "sC" }]

/-- Host keys of a grouping. -/
def hostKeys (g : Grouped) : List (Option String) := g.map Prod.fst

/-- Well-formedness of a grouping: every severity bucket is non-empty. -/
def wfGrouped (g : Grouped) : Prop :=
  ∀ p ∈ g, ∀ q ∈ p.2, q.2 ≠ []

/-- Severity section content determined by an inner dict, used to state the
renderer characterization. -/
def sevItemsOfInner (hc i : Nat) (inner : SevGroups) (s : String) : List DocItem :=
  match lookupSev inner s with
  | none => []
  | some vulns =>
    DocItem.heading3 ("3." ++ toString hc ++ "." ++ toString i ++
        " " ++ pyCapitalize s ++ " Vulnerabilities")
      :: (List.enumFrom 1 vulns).flatMap fun t => specFindingItems hc i t.1 t.2

/-- Host section content determined by a host dict entry, used to state the
renderer characterization. -/
def hostItemsOfInner (fs : List Finding) (hc : Nat) (host : Option String) (inner : SevGroups) :
    List DocItem :=
  [DocItem.heading2 ("3." ++ toString hc ++ " " ++ pyStr host),
   DocItem.picture (chartCounts (fs.filter (fun f => decide (f.host = host))))
     (pyStr host ++ " - Vulnerabilities by Severity")]
  ++ (List.enumFrom 1 severity_order).flatMap fun q => sevItemsOfInner hc q.1 inner q.2

/- Lemmas about the grouping structure. -/

/-- Lookup after an inner insert: the inserted severity gains the finding at
the end of its list, other severities are untouched. -/
theorem lookupSev_insertSev (l : SevGroups) (s t : String) (f : Finding) :
    lookupSev (insertSev l s f) t =
      if s = t then some (((lookupSev l s).getD []) ++ [f]) else lookupSev l t := by
  induction l with
  | nil =>
    by_cases h : s = t <;> simp [insertSev, lookupSev, h]
  | cons kv rest ih =>
    obtain ⟨k, v⟩ := kv
    simp only [insertSev]
    by_cases hks : k = s
    · subst hks
      rw [if_pos rfl]
      by_cases hkt : k = t <;> simp [lookupSev, hkt]
    · rw [if_neg hks]
      by_cases hkt : k = t
      · subst hkt
        have hsk : ¬ s = k := fun hx => hks hx.symm
        simp [lookupSev, hsk]
      · simp [lookupSev, hkt, ih, hks]

/-- Lookup after an outer insert. -/
theorem lookupHost_insertGrouped (g : Grouped) (f : Finding) (h : Option String) :
    lookupHost (insertGrouped g f) h =
      if f.host = h then some (insertSev ((lookupHost g f.host).getD []) f.risk f)
      else lookupHost g h := by
  induction g with
  | nil =>
    by_cases hh : f.host = h <;> simp [insertGrouped, lookupHost, hh, insertSev]
  | cons kv rest ih =>
    obtain ⟨k, v⟩ := kv
    simp only [insertGrouped]
    by_cases hkf : k = f.host
    · subst hkf
      rw [if_pos rfl]
      by_cases hkh : f.host = h <;> simp [lookupHost, hkh]
    · rw [if_neg hkf]
      by_cases hkh : k = h
      · subst hkh
        have hfk : ¬ f.host = k := fun hx => hkf hx.symm
        simp [lookupHost, hfk, hkf]
      · simp [lookupHost, hkh, ih, hkf]

/-- The grouped sequence as a double lookup with defaults. -/
theorem groupSeq_eq_getD (g : Grouped) (h : Option String) (s : String) :
    groupSeq g h s = (lookupSev ((lookupHost g h).getD []) s).getD [] := by
  unfold groupSeq
  cases h1 : lookupHost g h with
  | none => simp [lookupSev]
  | some l => cases h2 : lookupSev l s <;> simp [h2]

/-- Inserting one finding appends it to exactly its own bucket. -/
theorem groupSeq_insertGrouped (g : Grouped) (f : Finding) (h : Option String) (s : String) :
    groupSeq (insertGrouped g f) h s =
      groupSeq g h s ++ (if f.host = h ∧ f.risk = s then [f] else []) := by
  rw [groupSeq_eq_getD, groupSeq_eq_getD, lookupHost_insertGrouped]
  by_cases hh : f.host = h
  · rw [if_pos hh, Option.getD_some, ← hh, lookupSev_insertSev]
    by_cases hs : f.risk = s
    · rw [if_pos hs]
      simp [hs]
    · rw [if_neg hs]
      simp [hs]
  · rw [if_neg hh]
    simp [hh]

/-- The grouping fold distributes over the bucket sequences: each bucket is
the original filter of the input, in input order. -/
theorem groupSeq_foldl (fs : List Finding) (g : Grouped) (h : Option String) (s : String) :
    groupSeq (fs.foldl insertGrouped g) h s =
      groupSeq g h s ++ fs.filter (fun f => decide (f.host = h ∧ f.risk = s)) := by
  induction fs generalizing g with
  | nil => simp
  | cons f rest ih =>
    rw [List.foldl_cons, ih, groupSeq_insertGrouped, List.filter_cons]
    by_cases hf : f.host = h ∧ f.risk = s <;> simp [hf]

/-- The central stability lemma: grouped[host][severity] is exactly the
filter of the normalized frame on that host and severity, in input order. -/
theorem groupSeq_groupFindings (fs : List Finding) (h : Option String) (s : String) :
    groupSeq (groupFindings fs) h s =
      fs.filter (fun f => decide (f.host = h ∧ f.risk = s)) := by
  have h0 := groupSeq_foldl fs [] h s
  simpa [groupFindings, groupSeq, lookupHost] using h0

/-- Inserting a finding creates its host key at the end when new. -/
theorem hostKeys_insertGrouped (g : Grouped) (f : Finding) :
    hostKeys (insertGrouped g f) =
      if f.host ∈ hostKeys g then hostKeys g else hostKeys g ++ [f.host] := by
  induction g with
  | nil => simp [insertGrouped, hostKeys]
  | cons kv rest ih =>
    obtain ⟨k, v⟩ := kv
    simp only [insertGrouped]
    by_cases hkf : k = f.host
    · subst hkf
      rw [if_pos rfl]
      simp [hostKeys]
    · rw [if_neg hkf]
      have hne : ¬ f.host = k := fun hx => hkf hx.symm
      by_cases hmem : f.host ∈ hostKeys rest
      · have hm2 : f.host ∈ hostKeys ((k, v) :: rest) := by
          show f.host ∈ k :: hostKeys rest
          exact List.mem_cons_of_mem k hmem
        rw [if_pos hm2]
        have ih2 : hostKeys (insertGrouped rest f) = hostKeys rest := by
          rw [ih, if_pos hmem]
        show k :: hostKeys (insertGrouped rest f) = k :: hostKeys rest
        rw [ih2]
      · have hm2 : ¬ f.host ∈ hostKeys ((k, v) :: rest) := by
          show ¬ f.host ∈ k :: hostKeys rest
          simp [List.mem_cons, hne, hmem]
        rw [if_neg hm2]
        have ih2 : hostKeys (insertGrouped rest f) = hostKeys rest ++ [f.host] := by
          rw [ih, if_neg hmem]
        show k :: hostKeys (insertGrouped rest f) = (k :: hostKeys rest) ++ [f.host]
        rw [ih2, List.cons_append]

/-- The host keys of the grouping fold are collected in first-seen order. -/
theorem hostKeys_foldl (fs : List Finding) (g : Grouped) :
    hostKeys (fs.foldl insertGrouped g) =
      fs.foldl (fun acc f => if f.host ∈ acc then acc else acc ++ [f.host]) (hostKeys g) := by
  induction fs generalizing g with
  | nil => simp
  | cons f rest ih =>
    rw [List.foldl_cons, List.foldl_cons, ih, hostKeys_insertGrouped]

/-- Host iteration order of the grouping equals the first-seen order of
hosts in the normalized frame. -/
theorem hostKeys_groupFindings (fs : List Finding) :
    hostKeys (groupFindings fs) = firstSeen fs := by
  have h0 := hostKeys_foldl fs []
  simpa [groupFindings, firstSeen, hostKeys] using h0

/-- The first-seen step keeps a list without duplicates without duplicates. -/
theorem nodup_firstSeen_step (fs : List Finding) (acc : List (Option String)) (hacc : acc.Nodup) :
    (fs.foldl (fun acc f => if f.host ∈ acc then acc else acc ++ [f.host]) acc).Nodup := by
  induction fs generalizing acc with
  | nil => simpa
  | cons f rest ih =>
    rw [List.foldl_cons]
    by_cases hmem : f.host ∈ acc
    · rw [if_pos hmem]
      exact ih acc hacc
    · rw [if_neg hmem]
      refine ih _ ?_
      simp [List.nodup_append, hacc, hmem]

/-- The grouping has no duplicate host keys. -/
theorem nodup_hostKeys_groupFindings (fs : List Finding) :
    (hostKeys (groupFindings fs)).Nodup := by
  rw [hostKeys_groupFindings]
  exact nodup_firstSeen_step fs [] List.nodup_nil

/-- A key-value pair of a duplicate-free dict is found by lookup. -/
theorem lookupHost_of_mem (g : Grouped) (h : Option String) (inner : SevGroups)
    (hnd : (hostKeys g).Nodup) (hmem : (h, inner) ∈ g) :
    lookupHost g h = some inner := by
  induction g with
  | nil => cases hmem
  | cons kv rest ih =>
    obtain ⟨k, v⟩ := kv
    rcases List.mem_cons.mp hmem with heq | htail
    · cases heq
      simp [lookupHost]
    · have hk_ne : ¬ k = h := by
        intro hx
        subst hx
        have : k ∈ hostKeys rest := by
          simpa [hostKeys] using List.mem_map_of_mem Prod.fst htail
        have hnotin : ¬ k ∈ hostKeys rest := by
          have := hnd
          simp [hostKeys] at this
          exact fun hin => (List.nodup_cons.mp (by simpa [hostKeys] using hnd)).1 hin
        exact hnotin this
      have hnd2 : (hostKeys rest).Nodup :=
        (List.nodup_cons.mp (by simpa [hostKeys] using hnd)).2
      simp [lookupHost, hk_ne]
      exact ih hnd2 htail

/-- A lookup hit is a member of the dict. -/
theorem mem_of_lookupHost (g : Grouped) (h : Option String) (inner : SevGroups)
    (hl : lookupHost g h = some inner) : (h, inner) ∈ g := by
  induction g with
  | nil => cases hl
  | cons kv rest ih =>
    obtain ⟨k, v⟩ := kv
    by_cases hk : k = h
    · subst hk
      simp [lookupHost] at hl
      simp [hl]
    · simp [lookupHost, hk] at hl
      exact List.mem_cons_of_mem _ (ih hl)

/-- A lookup hit on the inner dict is a member of it. -/
theorem mem_of_lookupSev (l : SevGroups) (s : String) (fs : List Finding)
    (hl : lookupSev l s = some fs) : (s, fs) ∈ l := by
  induction l with
  | nil => cases hl
  | cons kv rest ih =>
    obtain ⟨k, v⟩ := kv
    by_cases hk : k = s
    · subst hk
      simp [lookupSev] at hl
      simp [hl]
    · simp [lookupSev, hk] at hl
      exact List.mem_cons_of_mem _ (ih hl)

/-- Inner insert preserves non-empty buckets. -/
theorem wf_insertSev (l : SevGroups) (s : String) (f : Finding)
    (hl : ∀ q ∈ l, q.2 ≠ []) : ∀ q ∈ insertSev l s f, q.2 ≠ [] := by
  induction l with
  | nil =>
    intro q hq
    simp [insertSev] at hq
    simp [hq]
  | cons kv rest ih =>
    obtain ⟨k, v⟩ := kv
    intro q hq
    by_cases hk : k = s
    · subst hk
      simp [insertSev] at hq
      rcases hq with hq | hq
      · simp [hq]
      · exact hl q (List.mem_cons_of_mem _ hq)
    · simp [insertSev, hk] at hq
      rcases hq with hq | hq
      · exact hl q (by simp [hq])
      · exact ih (fun r hr => hl r (List.mem_cons_of_mem _ hr)) q hq

/-- Outer insert preserves non-empty buckets. -/
theorem wf_insertGrouped (g : Grouped) (f : Finding) (hg : wfGrouped g) :
    wfGrouped (insertGrouped g f) := by
  induction g with
  | nil =>
    intro p hp q hq
    simp [insertGrouped] at hp
    subst hp
    simp at hq
    simp [hq]
  | cons kv rest ih =>
    obtain ⟨k, v⟩ := kv
    intro p hp q hq
    by_cases hk : k = f.host
    · subst hk
      simp [insertGrouped] at hp
      rcases hp with hp | hp
      · subst hp
        exact wf_insertSev v f.risk f (fun r hr => hg (f.host, v) (by simp) r hr) q hq
      · exact hg p (List.mem_cons_of_mem _ hp) q hq
    · simp [insertGrouped, hk] at hp
      rcases hp with hp | hp
      · exact hg p (by simp [hp]) q hq
      · exact ih (fun r hr s hs => hg r (List.mem_cons_of_mem _ hr) s hs) p hp q hq

/-- The grouping built by the loop has only non-empty buckets. -/
theorem wf_groupFindings (fs : List Finding) : wfGrouped (groupFindings fs) := by
  have hstep : ∀ (l : List Finding) (g : Grouped), wfGrouped g → wfGrouped (l.foldl insertGrouped g) := by
    intro l
    induction l with
    | nil => intro g hg; simpa
    | cons f rest ih =>
      intro g hg
      rw [List.foldl_cons]
      exact ih _ (wf_insertGrouped g f hg)
  refine hstep fs [] ?_
  intro p hp
  cases hp

/- Character case-mapping lemmas, needed to reason about the severity
normalization on arbitrary input strings. -/

/-- Characters are determined by their code point. -/
theorem char_eq_of_toNat_eq {c d : Char} (h : c.toNat = d.toNat) : c = d := by
  apply Char.eq_of_val_eq
  apply UInt32.eq_of_toBitVec_eq
  exact BitVec.eq_of_toNat_eq h

/-- Building a character from a code point below the surrogate range keeps
the code point. -/
theorem toNat_char_ofNat_of_lt (n : Nat) (h : n < 55296) : (Char.ofNat n).toNat = n := by
  have hv : n.isValidChar := Or.inl h
  simp [Char.ofNat, hv, Char.ofNatAux, Char.toNat, UInt32.toNat, BitVec.toNat_ofNatLt]

/-- A character that upper-cases to H is h or H, so it lower-cases to h. -/
theorem toLower_ne_n_of_toUpper_H (c : Char) (h : c.toUpper = 'H') : c.toLower ≠ 'n' := by
  simp only [Char.toUpper] at h
  by_cases hc : c.toNat ≥ 97 ∧ c.toNat ≤ 122
  · rw [if_pos hc] at h
    have h1 : (Char.ofNat (c.toNat - 32)).toNat = c.toNat - 32 :=
      toNat_char_ofNat_of_lt _ (by omega)
    have h2 : c.toNat - 32 = 72 := by
      rw [← h1, h]
      decide
    have h3 : c = 'h' := char_eq_of_toNat_eq (by
      have hh : ('h').toNat = 104 := rfl
      omega)
    subst h3
    decide
  · rw [if_neg hc] at h
    subst h
    decide

/-- Upper-casing a character twice is the same as doing it once. -/
theorem char_toUpper_idem (c : Char) : Char.toUpper (Char.toUpper c) = Char.toUpper c := by
  simp only [Char.toUpper]
  by_cases hc : c.toNat ≥ 97 ∧ c.toNat ≤ 122
  · rw [if_pos hc]
    have h1 : (Char.ofNat (c.toNat - 32)).toNat = c.toNat - 32 :=
      toNat_char_ofNat_of_lt _ (by omega)
    rw [if_neg (by rw [h1]; omega)]
  · rw [if_neg hc, if_neg hc]

/-- Upper-casing a string twice is the same as doing it once. -/
theorem pyUpper_idem (s : String) : pyUpper (pyUpper s) = pyUpper s := by
  unfold pyUpper
  simp only [List.map_map]
  congr 1
  apply List.map_congr_left
  intro c _
  exact char_toUpper_idem c

/-- A severity string that upper-cases to HIGH does not lower-case to none,
so it always survives the filter of line 83 of app.py. -/
theorem pyUpper_HIGH_not_none (s : String) (h : pyUpper s = "HIGH") :
    pyLower s ≠ "none" := by
  intro hl
  have e1 : s.data.map Char.toUpper = "HIGH".data := congrArg String.data h
  have e2 : s.data.map Char.toLower = "none".data := congrArg String.data hl
  cases hd : s.data with
  | nil =>
    rw [hd] at e1
    exact absurd e1 (by decide)
  | cons c t =>
    rw [hd] at e1 e2
    rw [show "HIGH".data = ['H', 'I', 'G', 'H'] from by decide] at e1
    rw [show "none".data = ['n', 'o', 'n', 'e'] from by decide] at e2
    simp only [List.map_cons, List.cons.injEq] at e1 e2
    exact toLower_ne_n_of_toUpper_H c e1.1 e2.1

/- Lemmas about loading, filtering and chart counts. -/

/-- On frames that pandas can actually produce (no empty-string Risk cell:
read_csv turns an empty field into NaN), the source filter of lines 82 to
86 equals the keep rule as the spec words it, followed by normalization. -/
theorem loadFindings_eq_spec (rows : List RawRow)
    (hclean : ∀ r ∈ rows, r.risk ≠ some "") :
    loadFindings rows = (rows.filter specKeepRow).map specNormalizeRow := by
  induction rows with
  | nil => rfl
  | cons r rest ih =>
    have hr := hclean r (by simp)
    have hrest : ∀ x ∈ rest, x.risk ≠ some "" := fun x hx =>
      hclean x (List.mem_cons_of_mem _ hx)
    cases hrisk : r.risk with
    | none =>
      simp [loadFindings, List.filterMap_cons, loadRow, hrisk, specKeepRow,
        List.filter_cons]
      simpa [loadFindings] using ih hrest
    | some s =>
      by_cases hn : pyLower s = "none"
      · simp [loadFindings, List.filterMap_cons, loadRow, hrisk, hn, specKeepRow,
          List.filter_cons]
        simpa [loadFindings] using ih hrest
      · have hs : s ≠ "" := fun he => hr (by rw [hrisk, he])
        simp [loadFindings, List.filterMap_cons, loadRow, hrisk, hn, specKeepRow,
          List.filter_cons, hs, specNormalizeRow]
        simpa [loadFindings] using ih hrest

/-- A row that survives filtering contributes its finding to the frame. -/
theorem loadRow_mem (rows : List RawRow) (i : Nat) (r : RawRow) (s : String)
    (hi : rows[i]? = some r) (hr : r.risk = some s) (hn : pyLower s ≠ "none") :
    ({ host := r.host, risk := normalizeRisk s, title := r.name,
       description := r.description, solution := r.solution } : Finding) ∈ loadFindings rows := by
  have hmem : r ∈ rows := List.getElem?_mem hi
  apply List.mem_filterMap.mpr
  exact ⟨r, hmem, by simp [loadRow, hr, hn]⟩

/-- Counting one severity on a cons. -/
theorem countRisk_cons (f : Finding) (t : List Finding) (s : String) :
    countRisk (f :: t) s = (if f.risk = s then 1 else 0) + countRisk t s := by
  by_cases h : f.risk = s
  · simp [countRisk, List.filter_cons, h]
    omega
  · simp [countRisk, List.filter_cons, h]

/-- The bar total on a cons counts exactly the rows in the category set. -/
theorem chartSum_cons (f : Finding) (t : List Finding) :
    chartSum (f :: t) =
      chartSum t + (if f.risk = "CRITICAL" ∨ f.risk = "MEDIUM" ∨ f.risk = "LOW" then 1 else 0) := by
  simp only [chartSum, countRisk_cons]
  by_cases h1 : f.risk = "CRITICAL"
  · have h2 : ¬ f.risk = "MEDIUM" := by rw [h1]; decide
    have h3 : ¬ f.risk = "LOW" := by rw [h1]; decide
    simp only [h1, h2, h3, if_true, if_false, if_pos, or_false, false_or, or_true, true_or]
    simp
    omega
  · by_cases h2 : f.risk = "MEDIUM"
    · have h3 : ¬ f.risk = "LOW" := by rw [h2]; decide
      simp [h1, h2, h3]
      omega
    · by_cases h3 : f.risk = "LOW"
      · simp [h1, h2, h3]
        omega
      · simp [h1, h2, h3]

/-- The three chart bars together count exactly the findings whose severity
lies in the fixed category set. -/
theorem chartSum_eq_countIn (fs : List Finding) :
    chartSum fs =
      (fs.filter (fun f => decide (f.risk = "CRITICAL" ∨ f.risk = "MEDIUM" ∨ f.risk = "LOW"))).length := by
  induction fs with
  | nil => rfl
  | cons f t ih =>
    rw [chartSum_cons, List.filter_cons]
    by_cases h : f.risk = "CRITICAL" ∨ f.risk = "MEDIUM" ∨ f.risk = "LOW"
    · simp [h, ih]
    · simp [h, ih]

/-- A list with a member that fails the predicate loses length under the
filter. -/
theorem length_filter_lt_of_mem {α : Type} (l : List α) (p : α → Bool) (a : α)
    (ha : a ∈ l) (hpa : p a = false) : (l.filter p).length < l.length := by
  induction l with
  | nil => cases ha
  | cons b t ih =>
    rcases List.mem_cons.mp ha with rfl | hat
    · rw [List.filter_cons]
      simp only [hpa, Bool.false_eq_true, if_false]
      exact Nat.lt_succ_of_le (List.length_filter_le p t)
    · rw [List.filter_cons]
      by_cases hb : p b
      · simp only [hb, if_true, List.length_cons]
        exact Nat.succ_lt_succ (ih hat)
      · simp only [hb, Bool.false_eq_true, if_false, List.length_cons]
        exact Nat.lt_trans (ih hat) (Nat.lt_succ_self _)

/- Lemmas characterizing the renderer. -/

/-- A successful finding render is the spec-shaped finding section. -/
theorem renderFinding_eq_ok (hc i j : Nat) (v : Finding) (out : List DocItem)
    (h : renderFinding hc i j v = Except.ok out) :
    out = specFindingItems hc i j v := by
  cases ht : v.title with
  | none => simp [renderFinding, addRunText, ht] at h
  | some tt =>
    cases hd : v.description with
    | none => simp [renderFinding, addRunText, ht, hd] at h
    | some dd =>
      cases hs : v.solution with
      | none => simp [renderFinding, addRunText, ht, hd, hs] at h
      | some ss =>
        simp [renderFinding, addRunText, ht, hd, hs] at h
        rw [← h]
        simp [specFindingItems, specBlock, ht, hd, hs]

/-- A finding with a missing optional field makes its block render fail. -/
theorem renderFinding_error_of_bad (hc i j : Nat) (v : Finding)
    (hbad : v.title = none ∨ v.description = none ∨ v.solution = none) :
    ∃ e, renderFinding hc i j v = Except.error e := by
  cases ht : v.title with
  | none =>
    exact ⟨"TypeError: cell value is the float nan", by simp [renderFinding, addRunText, ht]⟩
  | some tt =>
    cases hd : v.description with
    | none =>
      exact ⟨"TypeError: cell value is the float nan", by simp [renderFinding, addRunText, ht, hd]⟩
    | some dd =>
      cases hs : v.solution with
      | none =>
        exact ⟨"TypeError: cell value is the float nan", by simp [renderFinding, addRunText, ht, hd, hs]⟩
      | some ss =>
        rcases hbad with h | h | h <;> simp [ht, hd, hs] at h

/-- A successful finding loop render is the enumerated concatenation of the
finding sections, numbered from the start index. -/
theorem renderFindingsGo_eq_ok (hc i : Nat) (l : List Finding) (j : Nat) (out : List DocItem)
    (h : renderFindingsGo hc i j l = Except.ok out) :
    out = (List.enumFrom j l).flatMap fun t => specFindingItems hc i t.1 t.2 := by
  induction l generalizing j out with
  | nil =>
    simp [renderFindingsGo] at h
    simp [← h]
  | cons v rest ih =>
    cases hv : renderFinding hc i j v with
    | error e => simp [renderFindingsGo, hv] at h
    | ok b =>
      cases hr : renderFindingsGo hc i (j + 1) rest with
      | error e => simp [renderFindingsGo, hv, hr] at h
      | ok r =>
        have hb := renderFinding_eq_ok hc i j v b hv
        have hrr := ih (j + 1) r hr
        simp [renderFindingsGo, hv, hr] at h
        rw [← h, hb, hrr]
        simp [List.enumFrom]

/-- A bad finding anywhere in the loop makes the loop fail. -/
theorem renderFindingsGo_error_of_bad (hc i : Nat) (l : List Finding) (j : Nat) (v : Finding)
    (hv : v ∈ l) (hbad : v.title = none ∨ v.description = none ∨ v.solution = none) :
    ∃ e, renderFindingsGo hc i j l = Except.error e := by
  induction l generalizing j with
  | nil => cases hv
  | cons w rest ih =>
    rcases List.mem_cons.mp hv with rfl | htail
    · obtain ⟨e, he⟩ := renderFinding_error_of_bad hc i j v hbad
      exact ⟨e, by simp [renderFindingsGo, he]⟩
    · cases hw : renderFinding hc i j w with
      | error e => exact ⟨e, by simp [renderFindingsGo, hw]⟩
      | ok b =>
        obtain ⟨e, he⟩ := ih (j + 1) htail
        exact ⟨e, by simp [renderFindingsGo, hw, he]⟩

/-- A successful severity section render is the spec-shaped section. -/
theorem renderSevBlock_eq_ok (hc i : Nat) (inner : SevGroups) (s : String) (out : List DocItem)
    (h : renderSevBlock hc i inner s = Except.ok out) :
    out = sevItemsOfInner hc i inner s := by
  cases hls : lookupSev inner s with
  | none =>
    simp [renderSevBlock, hls] at h
    simp [sevItemsOfInner, hls, ← h]
  | some vulns =>
    cases hfg : renderFindingsGo hc i 1 vulns with
    | error e => simp [renderSevBlock, hls, hfg] at h
    | ok its =>
      have hits := renderFindingsGo_eq_ok hc i vulns 1 its hfg
      simp [renderSevBlock, hls, hfg] at h
      rw [← h, hits]
      simp [sevItemsOfInner, hls]

/-- A successful severity loop render is the enumerated concatenation of the
severity sections. -/
theorem renderSevsGo_eq_ok (hc : Nat) (inner : SevGroups) (slist : List String) (i : Nat)
    (out : List DocItem) (h : renderSevsGo hc inner i slist = Except.ok out) :
    out = (List.enumFrom i slist).flatMap fun q => sevItemsOfInner hc q.1 inner q.2 := by
  induction slist generalizing i out with
  | nil =>
    simp [renderSevsGo] at h
    simp [← h]
  | cons s rest ih =>
    cases hb : renderSevBlock hc i inner s with
    | error e => simp [renderSevsGo, hb] at h
    | ok here =>
      cases hr : renderSevsGo hc inner (i + 1) rest with
      | error e => simp [renderSevsGo, hb, hr] at h
      | ok r =>
        have h1 := renderSevBlock_eq_ok hc i inner s here hb
        have h2 := ih (i + 1) r hr
        simp [renderSevsGo, hb, hr] at h
        rw [← h, h1, h2]
        simp [List.enumFrom]

/-- A successful host section render is the spec-shaped host section. -/
theorem renderHostBlock_eq_ok (fs : List Finding) (hc : Nat) (host : Option String)
    (inner : SevGroups) (out : List DocItem)
    (h : renderHostBlock fs hc host inner = Except.ok out) :
    out = hostItemsOfInner fs hc host inner := by
  cases hs : renderSevsGo hc inner 1 severity_order with
  | error e => simp [renderHostBlock, hs] at h
  | ok body =>
    have h1 := renderSevsGo_eq_ok hc inner severity_order 1 body hs
    simp [renderHostBlock, hs] at h
    rw [← h, h1]
    simp [hostItemsOfInner]

/-- A successful host loop render is the enumerated concatenation of the
host sections. -/
theorem renderHostsGo_eq_ok (fs : List Finding) (g : Grouped) (hc : Nat) (out : List DocItem)
    (h : renderHostsGo fs hc g = Except.ok out) :
    out = (List.enumFrom (hc + 1) g).flatMap fun p => hostItemsOfInner fs p.1 p.2.1 p.2.2 := by
  induction g generalizing hc out with
  | nil =>
    simp [renderHostsGo] at h
    simp [← h]
  | cons kv rest ih =>
    obtain ⟨host, inner⟩ := kv
    cases hb : renderHostBlock fs (hc + 1) host inner with
    | error e => simp [renderHostsGo, hb] at h
    | ok here =>
      cases hr : renderHostsGo fs (hc + 1) rest with
      | error e => simp [renderHostsGo, hb, hr] at h
      | ok r =>
        have h1 := renderHostBlock_eq_ok fs (hc + 1) host inner here hb
        have h2 := ih (hc + 1) r hr
        simp [renderHostsGo, hb, hr] at h
        rw [← h, h1, h2]
        simp [List.enumFrom]

/- List helper lemmas. -/

/-- Pointwise equal functions give equal flat maps. -/
theorem flatMap_congr_mem {α β : Type} (l : List α) (f g : α → List β)
    (h : ∀ x ∈ l, f x = g x) : l.flatMap f = l.flatMap g := by
  induction l with
  | nil => rfl
  | cons a t ih =>
    rw [List.flatMap_cons, List.flatMap_cons, h a (List.mem_cons_self a t),
      ih (fun x hx => h x (List.mem_cons_of_mem _ hx))]

/-- Enumeration commutes with mapping the values. -/
theorem enumFrom_map {α β : Type} (n : Nat) (l : List α) (f : α → β) :
    List.enumFrom n (l.map f) = (List.enumFrom n l).map (fun p => (p.1, f p.2)) := by
  induction l generalizing n with
  | nil => rfl
  | cons a t ih => simp [List.enumFrom, List.map_cons, ih]

/-- The value of an enumerated member is a member. -/
theorem snd_mem_of_mem_enumFrom {α : Type} {p : Nat × α} {n : Nat} {l : List α}
    (h : p ∈ List.enumFrom n l) : p.2 ∈ l := by
  induction l generalizing n with
  | nil => cases h
  | cons a t ih =>
    rcases List.mem_cons.mp h with rfl | h2
    · simp
    · exact List.mem_cons_of_mem _ (ih h2)

/-- A host section rendered from a dict entry of the grouping equals the
spec-worded host section over the flat frame: the buckets are filters and a
severity is present exactly when its filter is non-empty. -/
theorem hostItemsOfInner_eq_spec (fs : List Finding) (hc : Nat) (h : Option String)
    (inner : SevGroups) (hmem : (h, inner) ∈ groupFindings fs) :
    hostItemsOfInner fs hc h inner = specHostItems fs hc h := by
  have hlook : lookupHost (groupFindings fs) h = some inner :=
    lookupHost_of_mem _ _ _ (nodup_hostKeys_groupFindings fs) hmem
  unfold hostItemsOfInner specHostItems
  congr 1
  apply flatMap_congr_mem
  intro q _
  cases hls : lookupSev inner q.2 with
  | none =>
    have hseq : groupSeq (groupFindings fs) h q.2 = [] := by
      rw [groupSeq_eq_getD, hlook]
      simp [hls]
    have hfil : fs.filter (fun f => decide (f.host = h ∧ f.risk = q.2)) = [] := by
      rw [← groupSeq_groupFindings]
      exact hseq
    dsimp only
    rw [hfil]
    simp [sevItemsOfInner, hls]
  | some vulns =>
    have hseq : groupSeq (groupFindings fs) h q.2 = vulns := by
      rw [groupSeq_eq_getD, hlook]
      simp [hls]
    have hfil : fs.filter (fun f => decide (f.host = h ∧ f.risk = q.2)) = vulns := by
      rw [← groupSeq_groupFindings]
      exact hseq
    have hne : vulns ≠ [] :=
      wf_groupFindings fs (h, inner) hmem (q.2, vulns) (mem_of_lookupSev _ _ _ hls)
    have hie : vulns.isEmpty = false := by
      cases vulns with
      | nil => exact absurd rfl hne
      | cons a t => rfl
    dsimp only
    rw [hfil]
    simp [sevItemsOfInner, hls, hie]

/-- Unfolding of generate_report for rewriting. -/
theorem generate_report_unfold (rows : List RawRow) :
    generate_report rows =
      match renderHostsGo (loadFindings rows) 0 (groupFindings (loadFindings rows)) with
      | Except.error e => Except.error e
      | Except.ok body => Except.ok (reportPrefix (loadFindings rows) ++ body) := rfl

/-- The saved document of a successful run is the spec-worded document:
fixed sections, then hosts in first-seen order, severities in fixed order
filtered by presence, finding blocks in input order. -/
theorem generate_report_eq_spec (rows : List RawRow) (items : List DocItem)
    (h : generate_report rows = Except.ok items) : items = specReportItems rows := by
  rw [generate_report_unfold] at h
  cases hb : renderHostsGo (loadFindings rows) 0 (groupFindings (loadFindings rows)) with
  | error e => rw [hb] at h; cases h
  | ok body =>
    rw [hb] at h
    have hbody := renderHostsGo_eq_ok (loadFindings rows) (groupFindings (loadFindings rows)) 0 body hb
    have hitems : items = reportPrefix (loadFindings rows) ++ body := by
      cases h
      rfl
    rw [hitems, hbody]
    unfold specReportItems
    congr 1
    have hkeys : firstSeen (loadFindings rows) = hostKeys (groupFindings (loadFindings rows)) :=
      (hostKeys_groupFindings (loadFindings rows)).symm
    rw [hkeys]
    unfold hostKeys
    rw [enumFrom_map, List.flatMap_map]
    apply (flatMap_congr_mem _ _ _ ?_).symm
    intro p hp
    show specHostItems (loadFindings rows) p.1 p.2.1 =
      hostItemsOfInner (loadFindings rows) p.1 p.2.1 p.2.2
    exact (hostItemsOfInner_eq_spec (loadFindings rows) p.1 p.2.1 p.2.2
      (snd_mem_of_mem_enumFrom hp)).symm

/- Error propagation: a missing optional field in a rendered bucket aborts
the whole run. -/

/-- A bad finding in a present severity bucket makes the severity section
fail. -/
theorem renderSevBlock_error_of_bad (hc i : Nat) (inner : SevGroups) (s : String)
    (vulns : List Finding) (hls : lookupSev inner s = some vulns) (v : Finding)
    (hv : v ∈ vulns)
    (hbad : v.title = none ∨ v.description = none ∨ v.solution = none) :
    ∃ e, renderSevBlock hc i inner s = Except.error e := by
  obtain ⟨e, he⟩ := renderFindingsGo_error_of_bad hc i vulns 1 v hv hbad
  exact ⟨e, by simp [renderSevBlock, hls, he]⟩

/-- A bad finding in a bucket of a severity of the iterated list makes the
severity loop fail. -/
theorem renderSevsGo_error_of_bad (hc : Nat) (inner : SevGroups) (slist : List String)
    (i : Nat) (s : String) (hsin : s ∈ slist) (vulns : List Finding)
    (hls : lookupSev inner s = some vulns) (v : Finding) (hv : v ∈ vulns)
    (hbad : v.title = none ∨ v.description = none ∨ v.solution = none) :
    ∃ e, renderSevsGo hc inner i slist = Except.error e := by
  induction slist generalizing i with
  | nil => cases hsin
  | cons s0 rest ih =>
    rcases List.mem_cons.mp hsin with rfl | htail
    · obtain ⟨e, he⟩ := renderSevBlock_error_of_bad hc i inner s vulns hls v hv hbad
      exact ⟨e, by simp [renderSevsGo, he]⟩
    · cases hb : renderSevBlock hc i inner s0 with
      | error e => exact ⟨e, by simp [renderSevsGo, hb]⟩
      | ok here =>
        obtain ⟨e, he⟩ := ih (i + 1) htail
        exact ⟨e, by simp [renderSevsGo, hb, he]⟩

/-- A bad finding in a rendered severity of a host makes the host section
fail. -/
theorem renderHostBlock_error_of_bad (fs : List Finding) (hc : Nat) (host : Option String)
    (inner : SevGroups) (s : String) (hsin : s ∈ severity_order) (vulns : List Finding)
    (hls : lookupSev inner s = some vulns) (v : Finding) (hv : v ∈ vulns)
    (hbad : v.title = none ∨ v.description = none ∨ v.solution = none) :
    ∃ e, renderHostBlock fs hc host inner = Except.error e := by
  obtain ⟨e, he⟩ := renderSevsGo_error_of_bad hc inner severity_order 1 s hsin vulns hls v hv hbad
  exact ⟨e, by simp [renderHostBlock, he]⟩

/-- A bad finding in a rendered severity of a listed host makes the host
loop fail. -/
theorem renderHostsGo_error_of_bad (fs : List Finding) (g : Grouped) (hc : Nat)
    (host : Option String) (inner : SevGroups) (hmemg : (host, inner) ∈ g)
    (s : String) (hsin : s ∈ severity_order) (vulns : List Finding)
    (hls : lookupSev inner s = some vulns) (v : Finding) (hv : v ∈ vulns)
    (hbad : v.title = none ∨ v.description = none ∨ v.solution = none) :
    ∃ e, renderHostsGo fs hc g = Except.error e := by
  induction g generalizing hc with
  | nil => cases hmemg
  | cons kv rest ih =>
    obtain ⟨h0, in0⟩ := kv
    rcases List.mem_cons.mp hmemg with heq | htail
    · cases heq
      obtain ⟨e, he⟩ := renderHostBlock_error_of_bad fs (hc + 1) host inner s hsin vulns hls v hv hbad
      exact ⟨e, by simp [renderHostsGo, he]⟩
    · cases hb : renderHostBlock fs (hc + 1) h0 in0 with
      | error e => exact ⟨e, by simp [renderHostsGo, hb]⟩
      | ok here =>
        obtain ⟨e, he⟩ := ih (hc + 1) htail
        exact ⟨e, by simp [renderHostsGo, hb, he]⟩

/-- A kept finding with a missing optional field whose severity is one of
the rendered categories makes the whole run fail: no document is saved. -/
theorem generate_report_error_of_bad (rows : List RawRow) (f : Finding)
    (hf : f ∈ loadFindings rows) (hsev : f.risk ∈ severity_order)
    (hbad : f.title = none ∨ f.description = none ∨ f.solution = none) :
    ∃ e, generate_report rows = Except.error e := by
  have hfin : f ∈ groupSeq (groupFindings (loadFindings rows)) f.host f.risk := by
    rw [groupSeq_groupFindings]
    exact List.mem_filter.mpr ⟨hf, by simp⟩
  cases hlh : lookupHost (groupFindings (loadFindings rows)) f.host with
  | none =>
    rw [groupSeq_eq_getD, hlh] at hfin
    simp [lookupSev] at hfin
  | some inner =>
    cases hls : lookupSev inner f.risk with
    | none =>
      rw [groupSeq_eq_getD, hlh] at hfin
      simp [hls] at hfin
    | some vulns =>
      have hv : f ∈ vulns := by
        rw [groupSeq_eq_getD, hlh] at hfin
        simpa [hls] using hfin
      have hmemg : (f.host, inner) ∈ groupFindings (loadFindings rows) :=
        mem_of_lookupHost _ _ _ hlh
      obtain ⟨e, he⟩ := renderHostsGo_error_of_bad (loadFindings rows)
        (groupFindings (loadFindings rows)) 0 f.host inner hmemg f.risk hsev vulns hls f hv hbad
      exact ⟨e, by rw [generate_report_unfold, he]⟩

/- Section heading extraction lemmas. -/

/-- Extraction distributes over concatenation. -/
theorem sectionMarks_append (a b : List DocItem) :
    sectionMarks (a ++ b) = sectionMarks a ++ sectionMarks b :=
  List.filterMap_append a b _

/-- Extraction distributes over a flat map. -/
theorem sectionMarks_flatMap {α : Type} (l : List α) (f : α → List DocItem) :
    sectionMarks (l.flatMap f) = l.flatMap fun x => sectionMarks (f x) := by
  induction l with
  | nil => rfl
  | cons a t ih => rw [List.flatMap_cons, List.flatMap_cons, sectionMarks_append, ih]

/-- A finding section holds no host or severity heading. -/
theorem sectionMarks_specFindingItems (hc i j : Nat) (v : Finding) :
    sectionMarks (specFindingItems hc i j v) = [] := rfl

/-- A flat map whose pieces are option contents is a filter map. -/
theorem flatMap_eq_filterMap_toList {α β : Type} (l : List α) (f : α → Option β)
    (g : α → List β) (h : ∀ x ∈ l, g x = (f x).toList) :
    l.flatMap g = l.filterMap f := by
  induction l with
  | nil => rfl
  | cons a t ih =>
    rw [List.flatMap_cons, List.filterMap_cons, h a (List.mem_cons_self a t)]
    cases hf : f a with
    | none =>
      simpa using ih fun x hx => h x (List.mem_cons_of_mem _ hx)
    | some b =>
      simp [Option.toList]
      exact ih fun x hx => h x (List.mem_cons_of_mem _ hx)

/-- The headings of a spec host section: the host mark, then one severity
mark for each present severity, in the fixed order. -/
theorem sectionMarks_specHostItems (fs : List Finding) (hc : Nat) (h : Option String) :
    sectionMarks (specHostItems fs hc h) =
      SectionMark.host ("3." ++ toString hc ++ " " ++ pyStr h) ::
      (List.enumFrom 1 severity_order).filterMap fun q =>
        if (fs.filter (fun f => decide (f.host = h ∧ f.risk = q.2))).isEmpty then none
        else some (SectionMark.sev ("3." ++ toString hc ++ "." ++ toString q.1 ++
            " " ++ pyCapitalize q.2 ++ " Vulnerabilities")) := by
  unfold specHostItems
  rw [sectionMarks_append, sectionMarks_flatMap]
  have h1 : sectionMarks
      [DocItem.heading2 ("3." ++ toString hc ++ " " ++ pyStr h),
       DocItem.picture (chartCounts (fs.filter (fun f => decide (f.host = h))))
         (pyStr h ++ " - Vulnerabilities by Severity")] =
      [SectionMark.host ("3." ++ toString hc ++ " " ++ pyStr h)] := rfl
  rw [h1, List.singleton_append]
  congr 1
  apply flatMap_eq_filterMap_toList
  intro q _
  dsimp only
  by_cases hie : (fs.filter (fun f => decide (f.host = h ∧ f.risk = q.2))).isEmpty
  · rw [if_pos hie, if_pos hie]
    rfl
  · rw [if_neg hie, if_neg hie]
    show SectionMark.sev _ :: sectionMarks (List.flatMap _ _) = _
    rw [sectionMarks_flatMap]
    have hz : ∀ t ∈ List.enumFrom 1 (fs.filter (fun f => decide (f.host = h ∧ f.risk = q.2))),
        sectionMarks (specFindingItems hc q.1 t.1 t.2) = ([] : List SectionMark) := by
      intro t _
      exact sectionMarks_specFindingItems hc q.1 t.1 t.2
    rw [flatMap_congr_mem _ _ (fun _ => []) hz]
    simp [Option.toList]

/-- The headings of the spec document are the spec section marks. -/
theorem sectionMarks_specReportItems (rows : List RawRow) :
    sectionMarks (specReportItems rows) = specSectionMarks rows := by
  unfold specReportItems specSectionMarks
  dsimp only
  rw [sectionMarks_append, sectionMarks_flatMap]
  have h0 : sectionMarks (reportPrefix (loadFindings rows)) = [] := rfl
  rw [h0, List.nil_append]
  apply flatMap_congr_mem
  intro p _
  exact sectionMarks_specHostItems (loadFindings rows) p.1 p.2

/- Claim theorems. -/

/-- C1: for every input row, the row is excluded from the grouped findings
and from all chart counts if and only if its severity value is missing or
empty or equals none case-insensitively; all other rows are kept. Stated as
an equality: the loaded frame, every grouped bucket and the chart data are
computed from exactly the rows the spec keep rule keeps, in order. The
hypothesis records that pandas never loads an empty-string Risk cell (an
empty CSV field becomes NaN, here none). -/
theorem claim1_filter_rule (rows : List RawRow)
    (hclean : ∀ r ∈ rows, r.risk ≠ some "") :
    loadFindings rows = (rows.filter specKeepRow).map specNormalizeRow ∧
    (∀ h s, groupSeq (groupFindings (loadFindings rows)) h s =
      ((rows.filter specKeepRow).map specNormalizeRow).filter
        (fun f => decide (f.host = h ∧ f.risk = s))) ∧
    chartCounts (loadFindings rows) =
      chartCounts ((rows.filter specKeepRow).map specNormalizeRow) := by
  have h1 := loadFindings_eq_spec rows hclean
  refine ⟨h1, ?_, ?_⟩
  · intro h s
    rw [groupSeq_groupFindings, h1]
  · rw [h1]

/-- Witness for C1 on a mixed concrete input. -/
theorem claim1_filter_rule_witness :
    loadFindings mixedRows = (mixedRows.filter specKeepRow).map specNormalizeRow :=
  (claim1_filter_rule mixedRows (by decide)).1

/-- C2: every input row whose severity string upper-cases to HIGH survives
the filter and is stored as a Finding whose normalized severity is exactly
CRITICAL, the value used by grouping, headings and chart counts. -/
theorem claim2_high_is_critical (rows : List RawRow) (i : Nat) (r : RawRow) (s : String)
    (hi : rows[i]? = some r) (hr : r.risk = some s) (hu : pyUpper s = "HIGH") :
    ({ host := r.host, risk := "CRITICAL", title := r.name,
       description := r.description, solution := r.solution } : Finding) ∈ loadFindings rows := by
  have hn : pyLower s ≠ "none" := pyUpper_HIGH_not_none s hu
  have hnorm : normalizeRisk s = "CRITICAL" := by
    simp [normalizeRisk, hu]
  have hmem := loadRow_mem rows i r s hi hr hn
  rw [hnorm] at hmem
  exact hmem

/-- Witness for C2 at a lower-case high row. -/
theorem claim2_high_is_critical_witness :
    ({ host := some "h1", risk := "CRITICAL", title := some "A",
       description := some "dA", solution := some "sA" } : Finding) ∈ loadFindings mixedRows :=
  claim2_high_is_critical mixedRows 0
    { host := some "h1", risk := some "high", name := some "A",
      description := some "dA", solution := some "sA" }
    "high" (by decide) (by decide) (by decide)

/-- C3: grouping is stable. Each bucket grouped[host][severity] equals the
filter of the normalized frame on that host and severity, which preserves
the input order; in particular two kept findings of the same host and
severity appear in the bucket in their input order, as the second conjunct
spells out on any split of the frame. -/
theorem claim3_grouping_stable (rows : List RawRow) (h : Option String) (s : String) :
    groupSeq (groupFindings (loadFindings rows)) h s =
      (loadFindings rows).filter (fun f => decide (f.host = h ∧ f.risk = s)) ∧
    ∀ l1 l2 l3 (f1 f2 : Finding),
      loadFindings rows = l1 ++ f1 :: l2 ++ f2 :: l3 →
      f1.host = h → f1.risk = s → f2.host = h → f2.risk = s →
      ∃ m1 m2 m3, groupSeq (groupFindings (loadFindings rows)) h s =
        m1 ++ f1 :: m2 ++ f2 :: m3 := by
  refine ⟨groupSeq_groupFindings _ h s, ?_⟩
  intro l1 l2 l3 f1 f2 heq h1h h1r h2h h2r
  rw [groupSeq_groupFindings _ h s, heq]
  refine ⟨l1.filter (fun f => decide (f.host = h ∧ f.risk = s)),
    l2.filter (fun f => decide (f.host = h ∧ f.risk = s)),
    l3.filter (fun f => decide (f.host = h ∧ f.risk = s)), ?_⟩
  simp [List.filter_append, List.filter_cons, h1h, h1r, h2h, h2r]

/-- Witness for C3: two CRITICAL findings of one host keep their order
around an interleaved LOW finding. -/
theorem claim3_grouping_stable_witness :
    ∃ m1 m2 m3, groupSeq (groupFindings (loadFindings c3rows)) (some "h1") "CRITICAL" =
      m1 ++ ({ host := some "h1", risk := "CRITICAL", title := some "A",
               description := some "dA", solution := some "sA" } : Finding) ::
      m2 ++ ({ host := some "h1", risk := "CRITICAL", title := some "C",
               description := some "dC", solution := some "sC" } : Finding) :: m3 :=
  (claim3_grouping_stable c3rows (some "h1") "CRITICAL").2
    [] [{ host := some "h1", risk := "LOW", title := some "B",
          description := some "dB", solution := some "sB" }] []
    _ _ (by decide) (by decide) (by decide) (by decide) (by decide)

/-- C4: in a saved document the host sections appear in first-seen order of
the hosts among the kept rows, and inside a host the severity sub-headings
follow the fixed priority order CRITICAL, MEDIUM, LOW restricted to the
severities present for that host, independent of input order. -/
theorem claim4_host_and_severity_order (rows : List RawRow) (items : List DocItem)
    (h : generate_report rows = Except.ok items) :
    sectionMarks items = specSectionMarks rows := by
  rw [generate_report_eq_spec rows items h]
  exact sectionMarks_specReportItems rows

/-- Witness for C4 on the scenario input of the spec. -/
theorem claim4_host_and_severity_order_witness :
    sectionMarks ((generate_report scenarioRows).toOption.getD []) =
      specSectionMarks scenarioRows :=
  claim4_host_and_severity_order scenarioRows _ (by rfl)

/-- C5 counterexample: one kept Info row makes the global chart bars sum to
0 while the scope holds 1 finding, so the claimed equality with the number
of kept findings fails. -/
theorem claim5_chart_sum_cex :
    chartSum (loadFindings infoRows) ≠ (loadFindings infoRows).length := by decide

/-- C5 amended: every chart, global or per-host, is computed over exactly
the fixed category set with absent categories zero, and its three counts
sum to the number of kept findings in that scope whose normalized severity
lies in the category set CRITICAL, MEDIUM, LOW (not to all kept findings:
severities outside the set are uncounted). -/
theorem claim5_chart_sum_amended (rows : List RawRow) (h : Option String) :
    chartSum (loadFindings rows) =
      ((loadFindings rows).filter (fun f =>
        decide (f.risk = "CRITICAL" ∨ f.risk = "MEDIUM" ∨ f.risk = "LOW"))).length ∧
    chartSum ((loadFindings rows).filter (fun f => decide (f.host = h))) =
      (((loadFindings rows).filter (fun f => decide (f.host = h))).filter (fun f =>
        decide (f.risk = "CRITICAL" ∨ f.risk = "MEDIUM" ∨ f.risk = "LOW"))).length :=
  ⟨chartSum_eq_countIn _, chartSum_eq_countIn _⟩

/-- A filter that drops one name leaves a list in which the name is absent. -/
theorem contains_filter_ne (l : List String) (name : String) :
    (l.filter (fun f => decide (f ≠ name))).contains name = false := by
  induction l with
  | nil => rfl
  | cons a t ih =>
    rw [List.filter_cons]
    by_cases ha : a = name
    · simp [ha, ih]
    · simp [ha, ih]
      exact fun hx => ha hx.symm

/-- The file created by savefig is on disk whether or not it already was. -/
theorem contains_created (files : List String) (name : String) :
    ((if name ∈ files then files else files ++ [name]).contains name) = true := by
  by_cases hm : name ∈ files
  · simp [hm]
  · simp [hm]

/-- C6 counterexample: at the concrete call with a failing embed, the error
does propagate but the transient chart file is still on disk afterwards, so
the claimed deletion on the failure path does not happen. -/
theorem claim6_chart_file_cex :
    (add_severity_chart_files false [] "severity_chart.png").1 =
      Except.error "add_picture failed" ∧
    (add_severity_chart_files false [] "severity_chart.png").2.contains
      "severity_chart.png" = true := by
  constructor
  · rfl
  · decide

/-- C6 amended: the transient chart image is deleted after a successful
embed, and an embedding failure propagates to the caller; but on failure
os.remove is never reached, so the transient file is left on disk. -/
theorem claim6_chart_file_amended (files : List String) (name : String) :
    (add_severity_chart_files true files name).1 = Except.ok () ∧
    (add_severity_chart_files true files name).2.contains name = false ∧
    (add_severity_chart_files false files name).1 = Except.error "add_picture failed" ∧
    (add_severity_chart_files false files name).2.contains name = true := by
  refine ⟨rfl, ?_, rfl, ?_⟩
  · show ((if name ∈ files then files else files ++ [name]).filter
      (fun f => decide (f ≠ name))).contains name = false
    exact contains_filter_ne _ name
  · show ((if name ∈ files then files else files ++ [name]).contains name) = true
    exact contains_created files name

/-- C7 counterexample: a single kept row with a missing Name makes report
generation fail (the pandas NaN reaches the document text API and raises),
so the run is not tolerant of missing optional fields and no blank text is
rendered. -/
theorem claim7_missing_field_cex :
    (generate_report missingNameRows).isOk = false := by decide

/-- C7 amended: a kept row with a missing optional field does pass through
normalization and grouping unchanged, but when its severity group is
rendered (normalized severity in CRITICAL, MEDIUM, LOW) report generation
fails with an error instead of rendering the missing field as blank text,
and no document is saved. -/
theorem claim7_missing_field_amended (rows : List RawRow) (i : Nat) (r : RawRow) (s : String)
    (hi : rows[i]? = some r) (hr : r.risk = some s) (hn : pyLower s ≠ "none")
    (hsev : normalizeRisk s ∈ severity_order)
    (hbad : r.name = none ∨ r.description = none ∨ r.solution = none) :
    ({ host := r.host, risk := normalizeRisk s, title := r.name,
       description := r.description, solution := r.solution } : Finding) ∈ loadFindings rows ∧
    ∃ e, generate_report rows = Except.error e := by
  have hmem := loadRow_mem rows i r s hi hr hn
  exact ⟨hmem, generate_report_error_of_bad rows _ hmem hsev hbad⟩

/-- Witness for C7 at the concrete missing-Name input. -/
theorem claim7_missing_field_amended_witness :
    ({ host := some "h1", risk := normalizeRisk "High", title := none,
       description := some "d", solution := some "s" } : Finding) ∈ loadFindings missingNameRows ∧
    ∃ e, generate_report missingNameRows = Except.error e :=
  claim7_missing_field_amended missingNameRows 0
    { host := some "h1", risk := some "High", name := none,
      description := some "d", solution := some "s" }
    "High" (by decide) (by decide) (by decide) (by decide) (Or.inl rfl)

/-- C8: the pipeline is deterministic. It is a pure function of the parsed
rows (every step of the embedding of app.py is deterministic: dict
iteration is insertion order, no randomness enters), so two runs on equal
inputs produce equal documents, hence equal textual content and equal chart
count data. -/
theorem claim8_deterministic (rows1 rows2 : List RawRow) (h : rows1 = rows2) :
    generate_report rows1 = generate_report rows2 ∧
    (generate_report rows1).map docText = (generate_report rows2).map docText ∧
    (generate_report rows1).map docCharts = (generate_report rows2).map docCharts := by
  subst h
  exact ⟨rfl, rfl, rfl⟩

/-- Witness for C8 on the scenario input. -/
theorem claim8_deterministic_witness :
    generate_report scenarioRows = generate_report scenarioRows ∧
    (generate_report scenarioRows).map docText = (generate_report scenarioRows).map docText ∧
    (generate_report scenarioRows).map docCharts = (generate_report scenarioRows).map docCharts :=
  claim8_deterministic scenarioRows scenarioRows rfl

/-- C9: a saved document is exactly the spec-worded emission order:
statistics section with the global chart, executive summary placeholder,
then per host (first-seen order) a heading, a per-host chart, and per
present severity (fixed order) a sub-heading followed by one block per
finding with the severity-colored title background, risk label,
description, static impact placeholder and accent-colored solution, a page
break after each finding block and each major section. -/
theorem claim9_emission_order (rows : List RawRow) (items : List DocItem)
    (h : generate_report rows = Except.ok items) :
    items = specReportItems rows :=
  generate_report_eq_spec rows items h

/-- Witness for C9 on the scenario input. -/
theorem claim9_emission_order_witness :
    (generate_report scenarioRows).toOption.getD [] = specReportItems scenarioRows :=
  claim9_emission_order scenarioRows _ (by rfl)

/-- Appending to a fixed prefix is injective on strings. -/
theorem string_append_right_inj (a : String) {b c : String} (h : a ++ b = a ++ c) :
    b = c := by
  have hd : a.data ++ b.data = a.data ++ c.data := by
    have h2 := congrArg String.data h
    simpa [String.data_append] using h2
  have h3 : b.data = c.data := List.append_cancel_left hd
  cases b
  cases c
  exact congrArg String.mk h3

/-- Every finding table of a spec host section belongs to a finding of the
frame whose severity is one of the rendered categories; its risk label
carries that severity. -/
theorem table_mem_specHostItems (fs : List Finding) (hc : Nat) (h : Option String)
    (b : FindingBlock) (hb : DocItem.table b ∈ specHostItems fs hc h) :
    ∃ v ∈ fs, v.risk ∈ severity_order ∧ b.riskText = "Risk: " ++ v.risk := by
  unfold specHostItems at hb
  rcases List.mem_append.mp hb with hpre | hmain
  · simp at hpre
  · rcases List.mem_flatMap.mp hmain with ⟨q, hq, hin⟩
    dsimp only at hin
    by_cases hie : (fs.filter (fun f => decide (f.host = h ∧ f.risk = q.2))).isEmpty
    · rw [if_pos hie] at hin
      cases hin
    · rw [if_neg hie] at hin
      rcases List.mem_cons.mp hin with hhead | htail
      · cases hhead
      · rcases List.mem_flatMap.mp htail with ⟨t, ht, hvin⟩
        have hmemgrp : t.2 ∈ fs.filter (fun f => decide (f.host = h ∧ f.risk = q.2)) :=
          snd_mem_of_mem_enumFrom ht
        obtain ⟨hvfs, hprop⟩ := List.mem_filter.mp hmemgrp
        have hrisk : t.2.risk = q.2 := (of_decide_eq_true hprop).2
        have hsev : t.2.risk ∈ severity_order := by
          rw [hrisk]
          exact snd_mem_of_mem_enumFrom hq
        refine ⟨t.2, hvfs, hsev, ?_⟩
        simp [specFindingItems, specBlock] at hvin
        rw [hvin]

/-- Every finding table of a saved spec document carries the risk label of
a kept finding whose severity is one of the rendered categories. -/
theorem table_mem_specReportItems (rows : List RawRow) (b : FindingBlock)
    (hb : DocItem.table b ∈ specReportItems rows) :
    ∃ v ∈ loadFindings rows, v.risk ∈ severity_order ∧ b.riskText = "Risk: " ++ v.risk := by
  unfold specReportItems at hb
  dsimp only at hb
  rcases List.mem_append.mp hb with hpre | hmain
  · simp [reportPrefix] at hpre
  · rcases List.mem_flatMap.mp hmain with ⟨p, _, hin⟩
    exact table_mem_specHostItems (loadFindings rows) p.1 p.2 b hin

/-- C10 counterexample: at the concrete kept Info row the run saves a
document that contains no finding table at all, so the Info finding is not
rendered with the gray D3D3D3 title background or any other: the severity
loop iterates only CRITICAL, MEDIUM, LOW and never visits it. -/
theorem claim10_uncounted_severity_cex :
    (loadFindings infoRows).length = 1 ∧
    (generate_report infoRows).isOk = true ∧
    ((generate_report infoRows).toOption.getD []).filter isTableItem = [] := by
  refine ⟨rfl, ?_, ?_⟩
  · decide
  · decide

/-- C10 amended: a kept row whose severity upper-cases outside CRITICAL,
HIGH, MEDIUM, LOW survives the filter with the upper-cased severity, and
get_severity_color would give it the default gray D3D3D3; but the severity
loop of line 125 iterates only CRITICAL, MEDIUM, LOW, so in any saved
document no finding table carries its risk label (the D3D3D3 branch is dead
at its call site and the finding is not rendered); it is counted in no
chart category, so the chart bars sum to fewer than the findings in scope. -/
theorem claim10_uncounted_severity_amended (rows : List RawRow) (i : Nat) (r : RawRow)
    (s : String) (hi : rows[i]? = some r) (hr : r.risk = some s)
    (hn : pyLower s ≠ "none")
    (hout : ¬ (pyUpper s = "CRITICAL" ∨ pyUpper s = "HIGH" ∨
               pyUpper s = "MEDIUM" ∨ pyUpper s = "LOW")) :
    ∃ f ∈ loadFindings rows,
      f.risk = pyUpper s ∧
      get_severity_color f.risk = "D3D3D3" ∧
      f.risk ≠ "CRITICAL" ∧ f.risk ≠ "MEDIUM" ∧ f.risk ≠ "LOW" ∧
      (∀ items, generate_report rows = Except.ok items →
        ∀ b : FindingBlock, DocItem.table b ∈ items → b.riskText ≠ "Risk: " ++ f.risk) ∧
      chartSum (loadFindings rows) < (loadFindings rows).length := by
  have hne : pyUpper s ≠ "HIGH" := fun hx => hout (Or.inr (Or.inl hx))
  have hnorm : normalizeRisk s = pyUpper s := by
    simp [normalizeRisk, hne]
  have hmem := loadRow_mem rows i r s hi hr hn
  have h1 : ¬ (pyUpper s = "CRITICAL" ∨ pyUpper s = "HIGH") := fun hx =>
    hx.elim (fun h2 => hout (Or.inl h2)) (fun h2 => hout (Or.inr (Or.inl h2)))
  have h2 : pyUpper s ≠ "MEDIUM" := fun hx => hout (Or.inr (Or.inr (Or.inl hx)))
  have h3 : pyUpper s ≠ "LOW" := fun hx => hout (Or.inr (Or.inr (Or.inr hx)))
  have hcrit : pyUpper s ≠ "CRITICAL" := fun hx => hout (Or.inl hx)
  have hcolor : get_severity_color (pyUpper s) = "D3D3D3" := by
    simp [get_severity_color, pyUpper_idem s, h1, h2, h3]
  refine ⟨_, hmem, ?_, ?_, ?_, ?_, ?_, ?_, ?_⟩
  · exact hnorm
  · show get_severity_color (normalizeRisk s) = "D3D3D3"
    rw [hnorm]
    exact hcolor
  · show normalizeRisk s ≠ "CRITICAL"
    rw [hnorm]
    exact hcrit
  · show normalizeRisk s ≠ "MEDIUM"
    rw [hnorm]
    exact h2
  · show normalizeRisk s ≠ "LOW"
    rw [hnorm]
    exact h3
  · intro items hok b hbmem heq
    rw [generate_report_eq_spec rows items hok] at hbmem
    obtain ⟨v, _, hvsev, hvlabel⟩ := table_mem_specReportItems rows b hbmem
    have heq2 : b.riskText = "Risk: " ++ normalizeRisk s := heq
    have hveq : v.risk = normalizeRisk s := by
      apply string_append_right_inj "Risk: "
      rw [← hvlabel]
      exact heq2
    rw [hveq, hnorm] at hvsev
    simp only [severity_order, List.mem_cons, List.not_mem_nil, or_false] at hvsev
    rcases hvsev with hx | hx | hx
    · exact hcrit hx
    · exact h2 hx
    · exact h3 hx
  · have hflt : (fun f : Finding => decide (f.risk = "CRITICAL" ∨ f.risk = "MEDIUM" ∨ f.risk = "LOW"))
        ({ host := r.host, risk := normalizeRisk s, title := r.name,
           description := r.description, solution := r.solution } : Finding) = false := by
      simp [hnorm, hcrit, h2, h3]
    have hlt := length_filter_lt_of_mem (loadFindings rows)
      (fun f : Finding => decide (f.risk = "CRITICAL" ∨ f.risk = "MEDIUM" ∨ f.risk = "LOW"))
      _ hmem hflt
    rw [chartSum_eq_countIn]
    exact hlt

/-- Witness for C10 at the concrete Info row. -/
theorem claim10_uncounted_severity_amended_witness :
    ∃ f ∈ loadFindings infoRows,
      f.risk = pyUpper "Info" ∧
      get_severity_color f.risk = "D3D3D3" ∧
      f.risk ≠ "CRITICAL" ∧ f.risk ≠ "MEDIUM" ∧ f.risk ≠ "LOW" ∧
      (∀ items, generate_report infoRows = Except.ok items →
        ∀ b : FindingBlock, DocItem.table b ∈ items → b.riskText ≠ "Risk: " ++ f.risk) ∧
      chartSum (loadFindings infoRows) < (loadFindings infoRows).length :=
  claim10_uncounted_severity_amended infoRows 0
    { host := some "h1", risk := some "Info", name := some "A",
      description := some "d", solution := some "s" }
    "Info" (by decide) (by decide) (by decide) (by decide)
